import Mathlib

/-!
Verification development for the `graphql-gateway` crate (a federating
GraphQL gateway).  The definitions below are a shallow embedding of the
Rust sources:

* `src/query.rs`   — query planning/execution (`resolve`, `resolve_executors`,
  `resolve_executor`, `get_node_data`, `check_executor_response`,
  `merge_object`, `merge_value`);
* `src/gateway.rs` — schema merging (`create_schema`) and the gateway
  lifecycle (`validate`);
* `src/context.rs` — schema lookups (`object_by_kind`, `field`,
  `field_object_type`);
* `src/introspection.rs` — the introspection data model (`TypeKind`,
  `Type`, `Field`, the `Display` keys and `field_type()` peeling).

JSON values are modelled with objects as insertion-ordered association
lists (the design notes of the crate require insertion-order preserving
maps).  Asynchronous upstream calls (`Executor::execute`) are modelled by
an explicit oracle parameter; recursion through the request's fragment
map is modelled with an explicit fuel parameter, every other recursion is
structural.
-/

namespace GraphQLGateway

/-! ## Association-list maps (insertion ordered, `HashMap`/`Map` semantics) -/

/-- Lookup in an association list (first matching key). -/
def alookup {α : Type} : List (String × α) → String → Option α
  | [], _ => none
  | (k, v) :: rest, key => if k = key then some v else alookup rest key

/-- The `insert` of an insertion-ordered map: replace the value in place when
the key is present, append otherwise. -/
def minsert {α : Type} : List (String × α) → String → α → List (String × α)
  | [], k, v => [(k, v)]
  | (k', v') :: rest, k, v =>
      if k' = k then (k, v) :: rest else (k', v') :: minsert rest k v

/-- Update the value stored at a key in place (no-op when absent). -/
def mupdate {α : Type} : List (String × α) → String → (α → α) → List (String × α)
  | [], _, _ => []
  | (k', v') :: rest, k, f =>
      if k' = k then (k', f v') :: rest else (k', v') :: mupdate rest k f

/-- The `extend` of an insertion-ordered map: insert every entry of `b`. -/
def mextend {α : Type} (a b : List (String × α)) : List (String × α) :=
  b.foldl (fun acc kv => minsert acc kv.1 kv.2) a

/-! ## JSON values (`serde_json::Value`) -/

inductive Json : Type where
  | null : Json
  | bool : Bool → Json
  | num : Int → Json
  | str : String → Json
  | arr : List Json → Json
  | obj : List (String × Json) → Json

/-- The `Value::get(key)`: member lookup on objects, `None` on the rest. -/
def Json.get? : Json → String → Option Json
  | .obj kvs, k => alookup kvs k
  | _, _ => none

/-- The `Value::get(index)`: element lookup on arrays, `None` on the rest. -/
def Json.getIdx? : Json → Nat → Option Json
  | .arr xs, i => xs.get? i
  | _, _ => none

def Json.isNull : Json → Bool
  | .null => true
  | _ => false

def Json.isArr : Json → Bool
  | .arr _ => true
  | _ => false

def Json.isEmptyArr : Json → Bool
  | .arr [] => true
  | _ => false

/-- The `Value::as_object()`. -/
def Json.asObject? : Json → Option (List (String × Json))
  | .obj kvs => some kvs
  | _ => none

/-! ## `merge_value` / `merge_object` (src/query.rs lines 970–1003)

`merge_value` merges executor results: objects are merged by key
extension, arrays element-wise **by index** (`for (i, a_value) in
a_values.iter_mut().enumerate() { ... b_values.get(i) ... }`), anything
else is overwritten by the right-hand value.  An array element whose
counterpart exists but is not an object–object pair becomes `null`; an
element with no counterpart (`b` shorter than `a`) is left unchanged. -/

/-- One element of the array case of `merge_value`. -/
def mergeArrayIdx (av bv : List Json) : List Json :=
  av.enum.map fun p =>
    match bv.get? p.1 with
    | none => p.2
    | some b =>
      match p.2, b with
      | .obj ao, .obj bo => .obj (mextend ao bo)
      | _, _ => .null

def mergeValue : Json → Json → Json
  | .obj ao, .obj bo => .obj (mextend ao bo)
  | .arr av, .arr bv => .arr (mergeArrayIdx av bv)
  | _, b => b

def mergeObject (a b : List (String × Json)) : List (String × Json) :=
  b.foldl
    (fun acc kv =>
      match alookup acc kv.1 with
      | some v => mupdate acc kv.1 (fun _ => mergeValue v kv.2)
      | none => acc ++ [kv])
    a

/-! ## Introspection data model (src/introspection.rs)

`TypeKind`, `Type` (recursive via `ofType`, `fields`, `interfaces`,
`possibleTypes`) and `Field`.  `Type::to_string()` renders
the key, Debug kind then dot then name; `Field::field_type()` peels
`List`/`NonNull` wrappers down to the final named type. -/

inductive TypeKind : Type where
  | scalar | object | interface | union | enum | inputObject | list | nonNull
deriving DecidableEq, Repr

/-- The `Debug` rendering of a `TypeKind`, as used in the string keys. -/
def TypeKind.str : TypeKind → String
  | .scalar => "Scalar"
  | .object => "Object"
  | .interface => "Interface"
  | .union => "Union"
  | .enum => "Enum"
  | .inputObject => "InputObject"
  | .list => "List"
  | .nonNull => "NonNull"

mutual
/-- The `introspection::Type`: kind, name, fields, interfaces, possibleTypes,
ofType.  (`description`, `enumValues`, `inputFields` are never read by the
merger or the planner and are omitted.) -/
inductive SType : Type where
  | mk : TypeKind → Option String → Option (List SField) → Option (List SType) →
         Option (List SType) → Option SType → SType

/-- The `introspection::Field`: name and type.  (`description`, `args`,
deprecation data are never read by the merger and are omitted.) -/
inductive SField : Type where
  | mk : String → SType → SField
end

def SType.kind : SType → TypeKind
  | .mk k _ _ _ _ _ => k

def SType.name? : SType → Option String
  | .mk _ n _ _ _ _ => n

def SType.fields? : SType → Option (List SField)
  | .mk _ _ fs _ _ _ => fs

def SType.interfaces? : SType → Option (List SType)
  | .mk _ _ _ is _ _ => is

def SType.possibleTypes? : SType → Option (List SType)
  | .mk _ _ _ _ pts _ => pts

def SType.ofType? : SType → Option SType
  | .mk _ _ _ _ _ o => o

/-- The `Type::name()`.  (The source panics on a missing name; the claims never
reach that path, the model totalises it with `""`.) -/
def SType.nameStr (t : SType) : String := t.name?.getD ""

/-- The `Type::to_string()` rendering: the Debug kind, a dot, the name. -/
def SType.key (t : SType) : String := t.kind.str ++ "." ++ t.nameStr

/-- The `get_final_field_type`: peel `List`/`NonNull` wrappers.  (The source
panics when a wrapper has no `ofType`; the model returns the wrapper.) -/
def SType.finalType : SType → SType
  | .mk .list n fs is pts (some u) =>
      let _ := n; let _ := fs; let _ := is; let _ := pts
      u.finalType
  | .mk .nonNull n fs is pts (some u) =>
      let _ := n; let _ := fs; let _ := is; let _ := pts
      u.finalType
  | t => t

def SField.name : SField → String
  | .mk n _ => n

def SField.fieldType : SField → SType
  | .mk _ t => t

/-- The `Field::field_type()`: the final named type of the field. -/
def SField.finalFieldType (f : SField) : SType := f.fieldType.finalType

/-- An upstream introspection schema; the merger reads only `types`. -/
structure ISchema : Type where
  types : List SType

/-! ## Merged types and the schema merger (src/gateway.rs lines 98–223)

`create_schema` folds the `(executorName, schema)` pairs into one list of
merged types plus the two lookup indices.  A merged type starts as a clone
of the first occurrence with `fields`/`possible_types` cleared. -/

/-- A merged `Type` record held in `GatewaySchema.0.types`. -/
structure MType : Type where
  kind : TypeKind
  name : Option String
  fields : Option (List SField)
  interfaces : Option (List SType)
  possibleTypes : Option (List SType)

def MType.nameStr (t : MType) : String := t.name.getD ""

def MType.key (t : MType) : String := t.kind.str ++ "." ++ t.nameStr

/-- The `Type::is_interface()` (helper of the schema module). -/
def MType.isInterfaceType (t : MType) : Bool := t.kind = TypeKind.interface

/-- Modelled from the spec: `Type::is_node()` is declared in the schema
module, whose current version is not part of the snapshot.  Per §9
("Node detection") a type is a node iff it implements an interface named
exactly `Node`. -/
def MType.isNodeType (t : MType) : Bool :=
  match t.interfaces with
  | some is => is.any fun i => i.nameStr = "Node"
  | none => false

/-- Replace the element at an index (no-op out of range); models the
in-place mutation of `types.get_mut(i)`. -/
def listModify {α : Type} : List α → Nat → (α → α) → List α
  | [], _, _ => []
  | x :: xs, 0, f => f x :: xs
  | x :: xs, n + 1, f => x :: listModify xs n f

inductive GatewayError : Type where
  | json : String → GatewayError
  | custom : String → GatewayError
  | unknownExecutor : String → GatewayError
  | duplicateObjectFields : List (String × String × String) → GatewayError
deriving DecidableEq, Repr

/-- The state threaded through `create_schema`'s loops. -/
structure BuildState : Type where
  types : List MType
  typesByName : List (String × Nat)
  typeFieldsByName : List (String × (String × Nat))
  duplicates : List (String × String × String)
  possibleTypesByName : List (String × (String × Bool))

/-- The inner `for field in fields` loop of `create_schema`: accumulator is
`(current_fields, type_fields_by_name, duplicate_object_fields)`;
`curKind` is the merged type's kind, `schemaTypeName` the incoming type's
name (used for the `"__"` whitelist test). -/
def buildField (executorName key : String) (curKind : TypeKind) (schemaTypeName : String)
    (acc : List SField × List (String × (String × Nat)) × List (String × String × String))
    (f : SField) :
    List SField × List (String × (String × Nat)) × List (String × String × String) :=
  let fieldKey := key ++ "." ++ f.name
  match alookup acc.2.1 fieldKey with
  | some p =>
      let ft := f.finalFieldType
      if ft.nameStr = "ID" ∨ curKind ≠ TypeKind.object ∨ ft.kind = TypeKind.interface ∨
          schemaTypeName.startsWith "__" = true then
        acc
      else
        (acc.1, acc.2.1, acc.2.2 ++ [(p.1, executorName, fieldKey)])
  | none =>
      (acc.1 ++ [f], minsert acc.2.1 fieldKey (executorName, acc.1.length), acc.2.2)

/-- The inner `for possible_type in possible_types` loop: accumulator is
`(current_possible_types, possible_types_by_name)`.  The key is
the type key, a dot, then the Debug rendering of the name — which
quotes it. -/
def buildPossibleType (executorName key : String)
    (acc : List SType × List (String × (String × Bool)))
    (pt : SType) : List SType × List (String × (String × Bool)) :=
  let ptKey := key ++ "." ++ "\"" ++ pt.nameStr ++ "\""
  if (alookup acc.2 ptKey).isSome then acc
  else (acc.1 ++ [pt], minsert acc.2 ptKey (executorName, true))

/-- The body of `for schema_type in schema.types.iter()`. -/
def buildType (executorName : String) (st : BuildState) (schemaType : SType) : BuildState :=
  let key := schemaType.key
  -- resolve or create the merged record, exactly as
  -- `types_by_name.get(&key).and_then(|&i| types.get_mut(i))`
  let found : Option (Nat × MType) :=
    (alookup st.typesByName key).bind fun i => (st.types.get? i).map fun mt => (i, mt)
  let (idx, cur, st) :=
    match found with
    | some (i, mt) => (i, mt, st)
    | none =>
        let mt : MType :=
          { kind := schemaType.kind, name := schemaType.name?, fields := none
            interfaces := schemaType.interfaces?, possibleTypes := none }
        (st.types.length, mt,
          { st with
            typesByName := minsert st.typesByName key st.types.length
            types := st.types ++ [mt] })
  -- merge possible types
  let st :=
    match schemaType.possibleTypes? with
    | some pts =>
        let start := cur.possibleTypes.getD []
        let res := pts.foldl (buildPossibleType executorName key) (start, st.possibleTypesByName)
        { st with
          types := listModify st.types idx fun mt => { mt with possibleTypes := some res.1 }
          possibleTypesByName := res.2 }
    | none => st
  -- merge fields
  match schemaType.fields? with
  | some fs =>
      let start := cur.fields.getD []
      let res := fs.foldl
        (buildField executorName key cur.kind schemaType.nameStr)
        (start, st.typeFieldsByName, st.duplicates)
      { st with
        types := listModify st.types idx fun mt => { mt with fields := some res.1 }
        typeFieldsByName := res.2.1
        duplicates := res.2.2 }
  | none => st

/-- The merged schema: `GatewaySchema(schema, value, types_by_name,
type_fields_by_name)`.  (The serialized `Value` mirror of the schema is
not modelled; no claim reads it.) -/
structure GatewaySchema : Type where
  types : List MType
  queryType : Option MType
  mutationType : Option MType
  typesByName : List (String × Nat)
  typeFieldsByName : List (String × (String × Nat))

/-- The two nested loops of `create_schema`: `for (executor_name, schema)
in schemas { for schema_type in schema.types { … } }`. -/
def buildRun (schemas : List (String × ISchema)) : BuildState :=
  schemas.foldl (fun st p => p.2.types.foldl (buildType p.1) st) ⟨[], [], [], [], []⟩

/-- The `create_schema` (src/gateway.rs lines 106–223) over an explicit
iteration sequence of `(executor name, introspection schema)` pairs. -/
def create_schema (schemas : List (String × ISchema)) : Except GatewayError GatewaySchema :=
  let st := buildRun schemas
  if st.duplicates ≠ [] then
    .error (.duplicateObjectFields st.duplicates)
  else
    .ok
      { types := st.types
        queryType := (alookup st.typesByName "Object.Query").map fun _ =>
          { kind := .object, name := some "Query", fields := none
            interfaces := none, possibleTypes := none }
        mutationType := (alookup st.typesByName "Object.Mutation").map fun _ =>
          { kind := .object, name := some "Mutation", fields := none
            interfaces := none, possibleTypes := none }
        typesByName := st.typesByName
        typeFieldsByName := st.typeFieldsByName }

/-! ## Gateway lifecycle (src/gateway.rs lines 36–90) -/

/-- The gateway's state: executor map (executors are opaque to the core and
modelled as tokens), cached introspections, merged schema, schema
document (opaque rendering). -/
structure Gateway : Type where
  executors : List (String × String)
  introspections : List (String × ISchema)
  schema : Option GatewaySchema
  document : String

/-- The `Gateway::validate` (src/gateway.rs lines 83–89), translated to state
passing: clone the cached introspections, substitute `schema` for `name`,
run `create_schema` on the clone, and return its error (if any).  The
method takes `&self`; the returned gateway is the state after the call. -/
def Gateway.validate (g : Gateway) (name : String) (schema : ISchema) :
    Except GatewayError Unit × Gateway :=
  let introspections := minsert g.introspections name schema
  (match create_schema introspections with
   | .error e => .error e
   | .ok _ => .ok (), g)

/-! ## Specification-side restatement of the duplicate-field rules (§4.1)

A clean walk over the declarations, used to characterise `create_schema`:
it tracks, per type key, the kind recorded at the first occurrence, and,
per field key, the first declaring executor; a later declaration of an
already-owned field key is a conflict unless one of the four whitelist
conditions holds for it. -/

structure SpecSt : Type where
  kinds : List (String × TypeKind)
  owners : List (String × String)
  conflicts : List (String × String × String)

/-- One field declaration of the walk: first declaration records the
owner, a repeat is whitelisted iff its final type is named `ID`, or the
owning type's (first recorded) kind is not `Object`, or its final type's
kind is `Interface`, or the owning type's name starts with `"__"`. -/
def specStepField (executorName : String) (t : SType)
    (acc : SpecSt) (f : SField) : SpecSt :=
  let fieldKey := t.key ++ "." ++ f.name
  match alookup acc.owners fieldKey with
  | some firstExec =>
      let ft := f.finalFieldType
      if ft.nameStr = "ID" ∨ alookup acc.kinds t.key ≠ some TypeKind.object ∨
          ft.kind = TypeKind.interface ∨ t.nameStr.startsWith "__" = true then
        acc
      else
        { acc with conflicts := acc.conflicts ++ [(firstExec, executorName, fieldKey)] }
  | none =>
      { acc with owners := minsert acc.owners fieldKey executorName }

/-- One type of the walk: record the kind at the first occurrence of the
type key, then walk the declared fields. -/
def specStepType (executorName : String) (acc : SpecSt) (t : SType) : SpecSt :=
  let acc :=
    if (alookup acc.kinds t.key).isSome then acc
    else { acc with kinds := minsert acc.kinds t.key t.kind }
  (t.fields?.getD []).foldl (specStepField executorName t) acc

def specRun (schemas : List (String × ISchema)) : SpecSt :=
  schemas.foldl (fun acc p => p.2.types.foldl (specStepType p.1) acc) ⟨[], [], []⟩

/-- The duplicate-field conflicts of the input, per the §4.1 rules. -/
def specConflicts (schemas : List (String × ISchema)) : List (String × String × String) :=
  (specRun schemas).conflicts

/-- The field owners of the input: each field key mapped to its first
declaring executor in iteration order. -/
def specOwners (schemas : List (String × ISchema)) : List (String × String) :=
  (specRun schemas).owners

/-- The correspondence between the merger's build state and the
specification-side walk: owners are the first components of the field
index, the recorded kind of a type key is the kind of the merged record
the type index points to, conflicts coincide, and the type index holds
valid positions. -/
def BuildInv (bst : BuildState) (sst : SpecSt) : Prop :=
  (∀ k, alookup sst.owners k = (alookup bst.typeFieldsByName k).map Prod.fst) ∧
  (∀ k, alookup sst.kinds k =
    (alookup bst.typesByName k).bind fun i => (bst.types.get? i).map MType.kind) ∧
  sst.conflicts = bst.duplicates ∧
  (∀ k i, alookup bst.typesByName k = some i → i < bst.types.length)

/-! ## Specification-side node-result join (§4.3.2 step 5 as claimed)

The claim's rule: each returned node is merged into the parent array
element whose `id` equals the node's `id`; parent elements whose id is
not among the returned nodes become `null`. -/

def hasIdValue (pid : String) (nd : Json) : Bool :=
  match nd.get? "id" with
  | some (.str s) => s = pid
  | _ => false

/-- The join-by-id rule stated by the specification (for string ids). -/
def claimIdJoin (parents nodes : List Json) : List Json :=
  parents.map fun p =>
    match p.get? "id" with
    | some (.str pid) =>
      match nodes.find? (hasIdValue pid) with
      | some nd => mergeValue p nd
      | none => .null
    | _ => .null

/-- The join rule the code actually implements, element-wise: position `i`
of the parent array is merged with `nodes[i]` when both are objects,
becomes `null` when `nodes[i]` exists but the pair is not object–object,
and is left unchanged when `nodes` has no element at `i`. -/
def mergeIndexed (a : Json) : Option Json → Json
  | none => a
  | some b =>
    match a, b with
    | .obj ao, .obj bo => .obj (mextend ao bo)
    | _, _ => .null

/-! ## Query AST (graphql_parser), request context, and errors -/

/-- A source position; `Pos::default()` is `{line: 0, column: 0}`. -/
structure Pos : Type where
  line : Nat
  column : Nat
deriving DecidableEq, Repr

def Pos.origin : Pos := ⟨0, 0⟩

/-- An argument value: the planner only distinguishes variables from
everything else. -/
inductive AstValue : Type where
  | variable : String → AstValue
  | lit : String → AstValue
deriving DecidableEq, Repr

mutual
/-- The `Selection`: field, fragment spread (position, fragment name) or
inline fragment (position, `... on T` condition, nested selections). -/
inductive Selection : Type where
  | field : SelField → Selection
  | fragmentSpread : Pos → String → Selection
  | inlineFragment : Pos → Option String → List Selection → Selection

/-- The `Field`: position, alias, name, arguments, nested selection set. -/
inductive SelField : Type where
  | mk : Pos → Option String → String → List (String × AstValue) → List Selection → SelField
end

def SelField.position : SelField → Pos
  | .mk p _ _ _ _ => p

def SelField.alias? : SelField → Option String
  | .mk _ a _ _ _ => a

def SelField.name : SelField → String
  | .mk _ _ n _ _ => n

def SelField.arguments : SelField → List (String × AstValue)
  | .mk _ _ _ args _ => args

def SelField.selectionSet : SelField → List Selection
  | .mk _ _ _ _ sels => sels

/-- The response key of a field: its alias when present, else its name. -/
def SelField.responseKey (f : SelField) : String := f.alias?.getD f.name

/-- Replace a field's nested selection set (`field.selection_set.items = …`). -/
def SelField.withSelections : SelField → List Selection → SelField
  | .mk p a n args _, sels => .mk p a n args sels

/-- The `FragmentDefinition`: name, `on` type condition, selection set. -/
structure FragmentDef : Type where
  name : String
  typeCondition : String
  selectionSet : List Selection

def FragmentDef.withSelections (fr : FragmentDef) (sels : List Selection) : FragmentDef :=
  { fr with selectionSet := sels }

/-- The `VariableDefinition`: the planner copies these verbatim; name and the
rendered type suffice. -/
structure VariableDef : Type where
  name : String
  varType : String
deriving DecidableEq, Repr

/-- The `QueryError` (src/query.rs lines 26–58); `Errors` carries the
accumulated positioned errors (`QueryPosError`). -/
inductive QueryError : Type where
  | notSupported
  | notConfiguredQueries
  | notConfiguredMutations
  | fieldNotFound : String → String → QueryError
  | fieldDataNotFound : String → String → QueryError
  | fieldIdNotFound : String → QueryError
  | typeNameNotExists : String → QueryError
  | missingTypeConditionInlineFragment
  | unknownFragment : String → QueryError
  | unknownExecutor : String → QueryError
  | invalidExecutorResponse
  | executor : Json → QueryError
  | errors : List (Pos × QueryError) → QueryError
  | custom : String → QueryError

/-- The `ResolveInfo` (src/query.rs lines 16–21). -/
structure ResolveInfo : Type where
  selections : List Selection
  fragments : List (String × FragmentDef)
  variableDefinitions : List (String × VariableDef)

/-- The request context (src/context.rs): the gateway's merged schema
(`types` + the two indices + its serialized JSON) and the request's
fragments and variable definitions. -/
structure Context : Type where
  types : List MType
  typesByName : List (String × Nat)
  typeFieldsByName : List (String × (String × Nat))
  schemaData : Json
  fragments : List (String × FragmentDef)
  variableDefinitions : List (String × VariableDef)

/-- The `Context::object_by_kind`: look `"<Kind>.<Name>"` up in the type index. -/
def Context.objectByKind (ctx : Context) (kind : TypeKind) (name : String) : Option MType :=
  (alookup ctx.typesByName (kind.str ++ "." ++ name)).bind fun i => ctx.types.get? i

/-- The `Context::object`. -/
def Context.object (ctx : Context) (name : String) : Option MType :=
  ctx.objectByKind .object name

/-- The `Context::field`: the owning executor's name and the field record. -/
def Context.field (ctx : Context) (t : MType) (name : String) : Option (String × SField) :=
  match (ctx.objectByKind t.kind t.nameStr).bind (·.fields) with
  | none => none
  | some fields =>
      (alookup ctx.typeFieldsByName (t.key ++ "." ++ name)).bind fun p =>
        (fields.get? p.2).map fun f => (p.1, f)

/-- The `Context::field_object_type`: owning executor plus the merged record of
the field's final named type. -/
def Context.fieldObjectType (ctx : Context) (t : MType) (name : String) :
    Option (String × MType) :=
  (ctx.field t name).bind fun p =>
    let ft := p.2.finalFieldType
    (ctx.objectByKind ft.kind ft.nameStr).map fun ot => (p.1, ot)

/-! ## The planner: `resolve_executors` (src/query.rs lines 620–762)

Recursion through fragments is fuelled; the per-selection loop is the
structural helper `goRX` whose accumulators mirror the source's
`executors`/`cache`/`errors`. -/

/-- The dedup fold shared by the interface/fragment cases: add each new
executor unless it is cached (`cache` is the first component). -/
def addExecs (acc : List String × List String) (new : List String) :
    List String × List String :=
  new.foldl
    (fun acc e => if acc.1.contains e then acc else (acc.1 ++ [e], acc.2 ++ [e]))
    acc

def goRX (rec : MType → Option Json → List Selection → Except QueryError (List String))
    (ctx : Context) (P : MType) (data : Option Json) :
    List Selection → List String → List String → List (Pos × QueryError) →
    Except QueryError (List String)
  | [], _, execs, errs =>
      if errs.isEmpty then .ok execs else .error (.errors errs)
  | .field f :: rest, cache, execs, errs =>
      if f.name.startsWith "__" then goRX rec ctx P data rest cache execs errs
      else
        match ctx.fieldObjectType P f.name with
        | none =>
            goRX rec ctx P data rest cache execs
              (errs ++ [(f.position, .fieldNotFound P.nameStr f.name)])
        | some (fieldExecutor, fieldType) =>
            if fieldType.isInterfaceType then
              match rec fieldType data f.selectionSet with
              | .error e => .error e
              | .ok fieldExecutors =>
                  let acc := addExecs (cache, execs) fieldExecutors
                  goRX rec ctx P data rest acc.1 acc.2 errs
            else
              let fieldName := f.responseKey
              let fieldData := data.bind fun d => d.get? fieldName
              if ¬ cache.contains fieldExecutor ∧ fieldData.isNone then
                goRX rec ctx P data rest (cache ++ [fieldExecutor])
                  (execs ++ [fieldExecutor]) errs
              else goRX rec ctx P data rest cache execs errs
  | .fragmentSpread pos fname :: rest, cache, execs, errs =>
      match alookup ctx.fragments fname with
      | none =>
          goRX rec ctx P data rest cache execs (errs ++ [(pos, .unknownFragment fname)])
      | some fragment =>
          match ctx.object fragment.typeCondition with
          | none =>
              goRX rec ctx P data rest cache execs
                (errs ++ [(pos, .typeNameNotExists fragment.typeCondition)])
          | some objectType =>
              match rec objectType data fragment.selectionSet with
              | .error e => .error e
              | .ok fragmentExecutors =>
                  let filtered := fragmentExecutors.filter fun e => ¬ cache.contains e
                  let acc := addExecs (cache, execs) filtered
                  goRX rec ctx P data rest acc.1 acc.2 errs
  | .inlineFragment pos cond items :: rest, cache, execs, errs =>
      match cond with
      | none =>
          goRX rec ctx P data rest cache execs
            (errs ++ [(pos, .missingTypeConditionInlineFragment)])
      | some v =>
          match ctx.object v with
          | none =>
              goRX rec ctx P data rest cache execs
                (errs ++ [(pos, .typeNameNotExists v)])
          | some objectType =>
              match rec objectType data items with
              | .error e => .error e
              | .ok fragmentExecutors =>
                  let filtered := fragmentExecutors.filter fun e => ¬ cache.contains e
                  let acc := addExecs (cache, execs) filtered
                  goRX rec ctx P data rest acc.1 acc.2 errs

def resolveExecutors : Nat → Context → MType → Option Json → List Selection →
    Except QueryError (List String)
  | 0, _, _, _, _ => .error (.custom "recursion limit")
  | n + 1, ctx, P, data, sels =>
      goRX (fun P' data' sels' => resolveExecutors n ctx P' data' sels') ctx P data
        sels [] [] []

/-! ## The planner: `resolve_executor` (src/query.rs lines 764–968) -/

/-- The synthetic alias-free `id` field prepended for `Node` parents. -/
def syntheticIdField : SelField := .mk Pos.origin none "id" [] []

/-- The client's first top-level `id` field in a selection list, if any. -/
def firstClientIdField (sels : List Selection) : Option SelField :=
  sels.findSome? fun s =>
    match s with
    | .field f => if f.name = "id" then some f else none
    | _ => none

/-- The variable definitions referenced by a field's arguments, keyed by
the argument name (`collect::<HashMap<..>>` over the argument list). -/
def fieldVariableDefinitions (ctx : Context) (args : List (String × AstValue)) :
    List (String × VariableDef) :=
  args.foldl
    (fun m a =>
      match a.2 with
      | .variable v =>
          match alookup ctx.variableDefinitions v with
          | some vd => minsert m a.1 vd
          | none => m
      | _ => m)
    []

def goRE (rec : MType → List Selection → String → Except QueryError ResolveInfo)
    (ctx : Context) (P : MType) (executor : String) :
    List Selection → List Selection → List (String × FragmentDef) →
    List (String × VariableDef) → List (Pos × QueryError) →
    Except QueryError ResolveInfo
  | [], items, frags, vars, errs =>
      if errs.isEmpty then .ok ⟨items, frags, vars⟩ else .error (.errors errs)
  | .field f :: rest, items, frags, vars, errs =>
      if f.name = "id" then goRE rec ctx P executor rest items frags vars errs
      else
        match ctx.fieldObjectType P f.name with
        | none =>
            goRE rec ctx P executor rest items frags vars
              (errs ++ [(f.position, .fieldNotFound P.nameStr f.name)])
        | some (fe, fieldType) =>
            let fieldExecutor := if fieldType.isInterfaceType then executor else fe
            if executor ≠ fieldExecutor then
              goRE rec ctx P executor rest items frags vars errs
            else
              let fieldVars := fieldVariableDefinitions ctx f.arguments
              if f.selectionSet.isEmpty then
                goRE rec ctx P executor rest (items ++ [.field f]) frags
                  (mextend vars fieldVars) errs
              else
                match rec fieldType f.selectionSet fieldExecutor with
                | .error e => .error e
                | .ok result =>
                    if result.selections.isEmpty && result.fragments.isEmpty then
                      goRE rec ctx P executor rest items frags vars errs
                    else
                      goRE rec ctx P executor rest
                        (items ++ [.field (f.withSelections result.selections)])
                        (mextend frags result.fragments)
                        (mextend (mextend vars result.variableDefinitions) fieldVars)
                        errs
  | .fragmentSpread pos fname :: rest, items, frags, vars, errs =>
      match alookup ctx.fragments fname with
      | none =>
          goRE rec ctx P executor rest items frags vars
            (errs ++ [(pos, .unknownFragment fname)])
      | some fragment =>
          match ctx.object fragment.typeCondition with
          | none =>
              goRE rec ctx P executor rest items frags vars
                (errs ++ [(pos, .typeNameNotExists fragment.typeCondition)])
          | some objectType =>
              match rec objectType fragment.selectionSet executor with
              | .error e => .error e
              | .ok info =>
                  if info.selections.length ≤ 1 then
                    goRE rec ctx P executor rest items frags vars errs
                  else
                    let items := items ++ [.fragmentSpread pos fname]
                    if (alookup frags fragment.name).isSome then
                      goRE rec ctx P executor rest items frags vars errs
                    else
                      goRE rec ctx P executor rest items
                        (mextend
                          (minsert frags fragment.name
                            (fragment.withSelections info.selections))
                          info.fragments)
                        (mextend vars info.variableDefinitions) errs
  | .inlineFragment pos cond innerItems :: rest, items, frags, vars, errs =>
      match cond with
      | none =>
          goRE rec ctx P executor rest items frags vars
            (errs ++ [(pos, .missingTypeConditionInlineFragment)])
      | some v =>
          match ctx.object v with
          | none =>
              goRE rec ctx P executor rest items frags vars
                (errs ++ [(pos, .typeNameNotExists v)])
          | some objectType =>
              match rec objectType innerItems executor with
              | .error e => .error e
              | .ok info =>
                  if info.selections.length ≤ 1 then
                    goRE rec ctx P executor rest items frags vars errs
                  else
                    goRE rec ctx P executor rest
                      (items ++ [.inlineFragment pos (some v) info.selections])
                      (mextend frags info.fragments)
                      (mextend vars info.variableDefinitions) errs

def resolveExecutor : Nat → Context → MType → List Selection → String →
    Except QueryError ResolveInfo
  | 0, _, _, _, _ => .error (.custom "recursion limit")
  | n + 1, ctx, P, sels, executor =>
      let initItems : List Selection :=
        if ¬ sels.isEmpty ∧ P.isNodeType then
          [.field ((firstClientIdField sels).getD syntheticIdField)]
        else []
      goRE (fun P' sels' e' => resolveExecutor n ctx P' sels' e') ctx P executor
        sels initItems [] [] []

/-! ## Executor responses and node fetch (src/query.rs lines 430–618) -/

/-- The `check_executor_response` (src/query.rs lines 607–618). -/
def check_executor_response (res : Json) : Except QueryError (List (String × Json)) :=
  if (res.get? "errors").isSome then .error (.executor res)
  else
    match res.get? "data" with
    | none => .error .invalidExecutorResponse
    | some d =>
        match d.asObject? with
        | none => .error .invalidExecutorResponse
        | some o => .ok o

/-- The network layer of a node fetch: `get_executor_node_data` builds the
`NodeQuery` document from the `ResolveInfo`, extracts ids from the parent
data, runs the executor and pipes the response through
`check_executor_response`.  It is modelled as an oracle taking the
executor name, the per-executor `ResolveInfo` and the parent data, and
returning the checked `data` object of the response. -/
abbrev NodeOracle :=
  String → ResolveInfo → Json → Except QueryError (List (String × Json))

/-- The `get_node_data` (src/query.rs lines 430–473). -/
def get_node_data (n : Nat) (ctx : Context) (oracle : NodeOracle) (P : MType)
    (data : Json) (sels : List Selection) : Except QueryError Json :=
  if ¬ P.isNodeType then .ok data
  else
    let firstData : Option Json :=
      match data with
      | .arr values => values.head?
      | _ => some data
    match resolveExecutors n ctx P firstData sels with
    | .error e => .error e
    | .ok executors =>
        if executors.isEmpty then .ok data
        else
          match
            executors.foldlM
              (fun (acc : List (String × Json)) e =>
                match resolveExecutor n ctx P sels e with
                | .error err => (Except.error err : Except QueryError (List (String × Json)))
                | .ok info =>
                    match oracle e info data with
                    | .error err => Except.error err
                    | .ok nodeData => Except.ok (mergeObject acc nodeData))
              ([] : List (String × Json))
          with
          | .error e => .error e
          | .ok map =>
              let res :=
                if data.isArr then alookup map "nodes"
                else (alookup map "nodes").bind fun nodes => nodes.getIdx? 0
              match res with
              | none => .error .invalidExecutorResponse
              | some nodeData => .ok (mergeValue data nodeData)

/-! ## The resolver: `resolve` (src/query.rs lines 186–347) -/

def goR (rec : MType → Json → List Selection → Except QueryError Json)
    (ctx : Context) (P : MType) (data : Json) :
    List Selection → List (String × Json) → List (Pos × QueryError) →
    Except QueryError (List (String × Json) × List (Pos × QueryError))
  | [], map, errs => .ok (map, errs)
  | .field f :: rest, map, errs =>
      let fieldName := f.responseKey
      let ftAndData : Option MType × Option Json :=
        if f.name = "__schema" then (ctx.object "__Schema", some ctx.schemaData)
        else ((ctx.fieldObjectType P f.name).map (·.2), data.get? fieldName)
      match ftAndData.2 with
      | none =>
          goR rec ctx P data rest map
            (errs ++ [(f.position, .fieldDataNotFound P.nameStr fieldName)])
      | some fieldData =>
          match ftAndData.1 with
          | none => goR rec ctx P data rest (minsert map fieldName fieldData) errs
          | some fieldType =>
              match rec fieldType fieldData f.selectionSet with
              | .error e => .error e
              | .ok d => goR rec ctx P data rest (minsert map fieldName d) errs
  | .fragmentSpread pos fname :: rest, map, errs =>
      match alookup ctx.fragments fname with
      | none =>
          goR rec ctx P data rest map (errs ++ [(pos, .unknownFragment fname)])
      | some fragment =>
          match ctx.object fragment.typeCondition with
          | none =>
              goR rec ctx P data rest map
                (errs ++ [(pos, .typeNameNotExists fragment.typeCondition)])
          | some objectType =>
              match rec objectType data fragment.selectionSet with
              | .error e => .error e
              | .ok d =>
                  match d with
                  | .obj o => goR rec ctx P data rest (mextend map o) errs
                  | _ => goR rec ctx P data rest map errs
  | .inlineFragment pos cond items :: rest, map, errs =>
      match cond with
      | none =>
          goR rec ctx P data rest map
            (errs ++ [(pos, .missingTypeConditionInlineFragment)])
      | some v =>
          match ctx.object v with
          | none =>
              goR rec ctx P data rest map (errs ++ [(pos, .typeNameNotExists v)])
          | some objectType =>
              match rec objectType data items with
              | .error e => .error e
              | .ok d =>
                  match d with
                  | .obj o => goR rec ctx P data rest (mextend map o) errs
                  | _ => goR rec ctx P data rest map errs

def resolve : Nat → Context → NodeOracle → MType → Json → List Selection →
    Except QueryError Json
  | 0, _, _, _, data, sels =>
      if data.isNull || sels.isEmpty then .ok data
      else if data.isEmptyArr then .ok data
      else .error (.custom "recursion limit")
  | n + 1, ctx, oracle, P, data, sels =>
      if data.isNull || sels.isEmpty then .ok data
      else if data.isEmptyArr then .ok data
      else
        match get_node_data n ctx oracle P data sels with
        | .error e => .error e
        | .ok data =>
            match data with
            | .arr values =>
                (values.mapM fun v => resolve n ctx oracle P v sels).map .arr
            | _ =>
                match goR (fun P' d' s' => resolve n ctx oracle P' d' s') ctx P data
                    sels [] [] with
                | .error e => .error e
                | .ok (map, errs) =>
                    if errs.isEmpty then .ok (.obj map) else .error (.errors errs)

/-- A top-level selection that is a field named `id`. -/
def isIdField : Selection → Bool
  | .field f => f.name = "id"
  | _ => false

/-! ## Concrete instances used by counterexamples and witnesses -/

def scalarString : SType := .mk .scalar (some "String") none none none none

def scalarID : SType := .mk .scalar (some "ID") none none none none

def ifaceNode : SType := .mk .interface (some "Node") none none none none

/-- One executor whose schema declares `Object.T.f` (a `String` field)
twice. -/
def dupType : SType :=
  .mk .object (some "T") (some [.mk "f" scalarString, .mk "f" scalarString]) (some []) none none

def dupSchemas : List (String × ISchema) := [("a", ⟨[dupType]⟩)]

/-- An object type declaring the whitelisted `ID`-typed field `T.f`. -/
def idFieldType : SType := .mk .object (some "T") (some [.mk "f" scalarID]) (some []) none none

def schemaPairA : String × ISchema := ("a", ⟨[idFieldType]⟩)

def schemaPairB : String × ISchema := ("b", ⟨[idFieldType]⟩)

/-- The merged schema produced from `[schemaPairA]` alone. -/
def builtA : GatewaySchema :=
  { types := [⟨.object, some "T", some [.mk "f" scalarID], some [], none⟩]
    queryType := none
    mutationType := none
    typesByName := [("Object.T", 0)]
    typeFieldsByName := [("Object.T.f", ("a", 0))] }

/-- The merged schema produced from `[schemaPairB]` alone. -/
def builtB : GatewaySchema :=
  { types := [⟨.object, some "T", some [.mk "f" scalarID], some [], none⟩]
    queryType := none
    mutationType := none
    typesByName := [("Object.T", 0)]
    typeFieldsByName := [("Object.T.f", ("b", 0))] }

/-- A `Node`-implementing object type `U` with `id: ID` owned by `"a"` and
`x: String` owned by `"r"`. -/
def nodeTypeU : MType :=
  ⟨.object, some "U", some [.mk "id" scalarID, .mk "x" scalarString], some [ifaceNode], none⟩

def mergedString : MType := ⟨.scalar, some "String", none, none, none⟩

def nodeCtx : Context :=
  ⟨[nodeTypeU, mergedString], [("Object.U", 0), ("Scalar.String", 1)],
    [("Object.U.id", ("a", 0)), ("Object.U.x", ("r", 1))], .null, [], []⟩

def nodeSels : List Selection := [.field (.mk ⟨1, 1⟩ none "x" [] [])]

def parentA : Json := .obj [("id", .str "A")]

def parentB : Json := .obj [("id", .str "B")]

def nodeForA : Json := .obj [("id", .str "A"), ("x", .str "ax")]

def nodeForB : Json := .obj [("id", .str "B"), ("x", .str "bx")]

/-- An upstream that returns the requested nodes out of request order:
first the node with id `"B"`, then the node with id `"A"`. -/
def outOfOrderOracle : NodeOracle := fun _ _ _ => .ok [("nodes", .arr [nodeForB, nodeForA])]

def refT : SType := .mk .object (some "T") none none none none

/-- A plain (non-`Node`) object type `P` with one object-typed field
`child : T`. -/
def parentTypeP : MType := ⟨.object, some "P", some [.mk "child" refT], none, none⟩

def childTypeT : MType := ⟨.object, some "T", some [], none, none⟩

def plainCtx : Context :=
  ⟨[parentTypeP, childTypeT], [("Object.P", 0), ("Object.T", 1)],
    [("Object.P.child", ("e", 0))], .null, [], []⟩

def noNetwork : NodeOracle := fun _ _ _ => .error (.custom "no network")

def childSel : SelField := .mk ⟨1, 1⟩ none "child" [] []

def missingSel : SelField := .mk ⟨5, 7⟩ none "a" [] []

def emptyCtx : Context := ⟨[], [], [], .null, [], []⟩

def nodeTypeBare : MType := ⟨.object, some "U", none, some [ifaceNode], none⟩

def aliasedIdField : SelField := .mk ⟨2, 3⟩ (some "myId") "id" [] []

/-! ## Helper lemmas -/

theorem alookup_minsert {α : Type} (l : List (String × α)) (k k' : String) (v : α) :
    alookup (minsert l k v) k' = if k = k' then some v else alookup l k' := by
  induction l with
  | nil =>
      by_cases h : k = k' <;> simp [minsert, alookup, h]
  | cons hd tl ih =>
      obtain ⟨k0, v0⟩ := hd
      by_cases h0 : k0 = k
      · subst h0
        by_cases h : k0 = k' <;> simp [minsert, alookup, h]
      · by_cases h : k0 = k'
        · subst h
          have hkk : ¬ k = k0 := fun h => h0 h.symm
          simp [minsert, alookup, h0, hkk]
        · simp [minsert, alookup, h0, h, ih]

/-- The `resolve` on `null` data returns `null` for any fuel: the base case
precedes the recursion. -/
theorem resolve_null (n : Nat) (ctx : Context) (oracle : NodeOracle) (P : MType)
    (sels : List Selection) :
    resolve n ctx oracle P Json.null sels = .ok Json.null := by
  cases n <;> rfl

/-! ## Claim C1: node-fetch result merging -/

/-- C1, counterexample.  The claim says node-fetch results are joined to an
array parent by matching `id`, unmatched parents becoming `null`.  On the
concrete input `[{id:"A"}, {id:"B"}]` with the upstream returning
`data.nodes = [{id:"B",x:"bx"}, {id:"A",x:"ax"}]` out of request order,
`get_node_data` (via `merge_value`) joins by position instead: element 0
receives the `id:"B"` node.  The id-join result the claim demands
(`claimIdJoin`) differs. -/
theorem c1_counterexample :
    get_node_data 2 nodeCtx outOfOrderOracle nodeTypeU (Json.arr [parentA, parentB]) nodeSels =
      .ok (Json.arr [Json.obj [("id", .str "B"), ("x", .str "bx")],
        Json.obj [("id", .str "A"), ("x", .str "ax")]]) ∧
    claimIdJoin [parentA, parentB] [nodeForB, nodeForA] =
      [Json.obj [("id", .str "A"), ("x", .str "ax")],
        Json.obj [("id", .str "B"), ("x", .str "bx")]] ∧
    Json.arr [Json.obj [("id", .str "B"), ("x", .str "bx")],
        Json.obj [("id", .str "A"), ("x", .str "ax")]] ≠
      Json.arr [Json.obj [("id", .str "A"), ("x", .str "ax")],
        Json.obj [("id", .str "B"), ("x", .str "bx")]] := by
  refine ⟨rfl, rfl, ?_⟩
  simp

/-- C1, amended: node-fetch result merging joins **by index**.  For an
array parent, element `i` is merged with `data.nodes[i]`: an
object–object pair merges by key extension, any other pair makes the
element `null`, and elements past the end of the returned list are left
unchanged; for a singleton parent, `data.nodes[0]` is merged over the
parent object. -/
theorem c1_amended (av bv : List Json) (i : Nat) (hi : i < av.length) :
    (∃ cv, mergeValue (Json.arr av) (Json.arr bv) = Json.arr cv ∧
      cv.get? i = some (mergeIndexed (av.getD i Json.null) (bv.get? i))) ∧
    ∀ po no, mergeValue (Json.obj po) (Json.obj no) = Json.obj (mextend po no) := by
  refine ⟨⟨mergeArrayIdx av bv, rfl, ?_⟩, fun po no => rfl⟩
  have hsome : av.get? i = some (av.get ⟨i, hi⟩) := List.get?_eq_get hi
  have hgetD : av.getD i Json.null = av.get ⟨i, hi⟩ := by
    rw [List.getD_eq_getD_get?, hsome]; rfl
  rw [hgetD]
  simp only [mergeArrayIdx, List.get?_map, List.get?_enum, hsome, Option.map_some']
  cases hb : bv.get? i with
  | none => simp [mergeIndexed]
  | some b => cases av.get ⟨i, hi⟩ <;> cases b <;> simp [mergeIndexed]

/-- C1, witness for the amended theorem at a concrete input. -/
theorem c1_amended_witness :
    0 < [parentA].length ∧
    ((∃ cv, mergeValue (Json.arr [parentA]) (Json.arr []) = Json.arr cv ∧
        cv.get? 0 = some (mergeIndexed ([parentA].getD 0 Json.null)
          (([] : List Json).get? 0))) ∧
      ∀ po no, mergeValue (Json.obj po) (Json.obj no) = Json.obj (mextend po no)) :=
  ⟨by decide, c1_amended [parentA] [] 0 (by decide)⟩

/-! ## Claim C3: null object-field handling in the resolve loop -/

/-- C3, counterexample.  The claim says that a selected field of
object/interface type whose fetched value is `null` is omitted from the
result.  On the concrete input `{child: null}` with `child : T` an
object-typed field, `resolve` returns `{child: null}`: the key is
present, bound to `null` (the recursion on `null` returns `null` and the
key is inserted). -/
theorem c3_counterexample :
    resolve 2 plainCtx noNetwork parentTypeP (Json.obj [("child", Json.null)])
        [Selection.field childSel] = .ok (Json.obj [("child", Json.null)]) ∧
    (Json.obj [("child", Json.null)]).get? "child" = some Json.null ∧
    some Json.null ≠ (none : Option Json) := by
  refine ⟨rfl, rfl, ?_⟩
  simp

/-- C3, amended: when the fetched value under a selected field's response
key is `null` and the field's declared type resolves in the schema, the
resolve loop **inserts** the key with value `null` (the recursion on
`null` data returns `null`) and then continues with the remaining
selections; the key is not omitted. -/
theorem c3_amended (n : Nat) (ctx : Context) (oracle : NodeOracle) (P : MType)
    (data : Json) (f : SelField) (rest : List Selection)
    (map : List (String × Json)) (errs : List (Pos × QueryError))
    (hname : f.name ≠ "__schema")
    (hft : (ctx.fieldObjectType P f.name).isSome)
    (hnull : data.get? f.responseKey = some Json.null) :
    goR (fun P' d' s' => resolve n ctx oracle P' d' s') ctx P data
        (Selection.field f :: rest) map errs
      = goR (fun P' d' s' => resolve n ctx oracle P' d' s') ctx P data rest
          (minsert map f.responseKey Json.null) errs := by
  obtain ⟨pft, hpft⟩ := Option.isSome_iff_exists.mp hft
  simp only [goR, if_neg hname, hpft, hnull, Option.map_some', resolve_null]

/-- C3, witness for the amended theorem at a concrete input. -/
theorem c3_amended_witness :
    childSel.name ≠ "__schema" ∧
    (plainCtx.fieldObjectType parentTypeP childSel.name).isSome ∧
    (Json.obj [("child", Json.null)]).get? childSel.responseKey = some Json.null ∧
    goR (fun P' d' s' => resolve 0 plainCtx noNetwork P' d' s') plainCtx parentTypeP
        (Json.obj [("child", Json.null)]) [Selection.field childSel] [] []
      = goR (fun P' d' s' => resolve 0 plainCtx noNetwork P' d' s') plainCtx parentTypeP
          (Json.obj [("child", Json.null)]) []
          (minsert [] childSel.responseKey Json.null) [] :=
  ⟨by decide, rfl, rfl,
    c3_amended 0 plainCtx noNetwork parentTypeP (Json.obj [("child", Json.null)])
      childSel [] [] [] (by decide) rfl rfl⟩

/-! ## Claims C2 and C8: the schema merger -/

theorem listModify_get? {α : Type} :
    ∀ (l : List α) (i j : Nat) (f : α → α),
      (listModify l i f).get? j = if j = i then (l.get? j).map f else l.get? j := by
  intro l
  induction l with
  | nil => intro i j f; simp [listModify]
  | cons x xs ih =>
      intro i j f
      cases i with
      | zero =>
          cases j with
          | zero => simp [listModify]
          | succ j => simp [listModify]
      | succ i =>
          cases j with
          | zero => simp [listModify]
          | succ j => simpa [listModify, Nat.succ_inj] using ih i j f

theorem listModify_length {α : Type} :
    ∀ (l : List α) (i : Nat) (f : α → α), (listModify l i f).length = l.length := by
  intro l
  induction l with
  | nil => intro i f; rfl
  | cons x xs ih =>
      intro i f
      cases i with
      | zero => rfl
      | succ i => simp [listModify, ih]

theorem buildField_fold_inv (exec : String) (t : SType) (curKind : TypeKind)
    (kinds : List (String × TypeKind)) (hk : alookup kinds t.key = some curKind) :
    ∀ (fs : List SField) (cf : List SField) (tfbn : List (String × (String × Nat)))
      (dups : List (String × String × String)) (owners : List (String × String))
      (conflicts : List (String × String × String)),
      (∀ k, alookup owners k = (alookup tfbn k).map Prod.fst) →
      conflicts = dups →
      (fs.foldl (specStepField exec t) ⟨kinds, owners, conflicts⟩).kinds = kinds ∧
      (∀ k, alookup (fs.foldl (specStepField exec t) ⟨kinds, owners, conflicts⟩).owners k =
        (alookup (fs.foldl (buildField exec t.key curKind t.nameStr) (cf, tfbn, dups)).2.1
          k).map Prod.fst) ∧
      (fs.foldl (specStepField exec t) ⟨kinds, owners, conflicts⟩).conflicts =
        (fs.foldl (buildField exec t.key curKind t.nameStr) (cf, tfbn, dups)).2.2 := by
  intro fs
  induction fs with
  | nil => intro cf tfbn dups owners conflicts ho hc; exact ⟨rfl, fun k => ho k, hc⟩
  | cons f fs ih =>
      intro cf tfbn dups owners conflicts ho hc
      simp only [List.foldl_cons]
      cases hl : alookup tfbn (t.key ++ "." ++ f.name) with
      | some p =>
          have hsp : alookup owners (t.key ++ "." ++ f.name) = some p.1 := by
            rw [ho, hl]; rfl
          have hiff :
              (f.finalFieldType.nameStr = "ID" ∨ alookup kinds t.key ≠ some TypeKind.object ∨
                f.finalFieldType.kind = TypeKind.interface ∨
                t.nameStr.startsWith "__" = true) ↔
              (f.finalFieldType.nameStr = "ID" ∨ curKind ≠ TypeKind.object ∨
                f.finalFieldType.kind = TypeKind.interface ∨
                t.nameStr.startsWith "__" = true) := by
            rw [hk]
            simp
          by_cases hw : f.finalFieldType.nameStr = "ID" ∨ curKind ≠ TypeKind.object ∨
              f.finalFieldType.kind = TypeKind.interface ∨ t.nameStr.startsWith "__" = true
          · have hstep1 : specStepField exec t ⟨kinds, owners, conflicts⟩ f =
                ⟨kinds, owners, conflicts⟩ := by
              simp only [specStepField, hsp, if_pos (hiff.mpr hw)]
            have hstep2 : buildField exec t.key curKind t.nameStr (cf, tfbn, dups) f =
                (cf, tfbn, dups) := by
              simp only [buildField, hl, if_pos hw]
            rw [hstep1, hstep2]
            exact ih cf tfbn dups owners conflicts ho hc
          · have hstep1 : specStepField exec t ⟨kinds, owners, conflicts⟩ f =
                ⟨kinds, owners, conflicts ++ [(p.1, exec, t.key ++ "." ++ f.name)]⟩ := by
              simp only [specStepField, hsp, if_neg (fun hx => hw (hiff.mp hx))]
            have hstep2 : buildField exec t.key curKind t.nameStr (cf, tfbn, dups) f =
                (cf, tfbn, dups ++ [(p.1, exec, t.key ++ "." ++ f.name)]) := by
              simp only [buildField, hl, if_neg hw]
            rw [hstep1, hstep2]
            exact ih cf tfbn (dups ++ [(p.1, exec, t.key ++ "." ++ f.name)]) owners
              (conflicts ++ [(p.1, exec, t.key ++ "." ++ f.name)]) ho (by rw [hc])
      | none =>
          have hsp : alookup owners (t.key ++ "." ++ f.name) = none := by
            rw [ho, hl]; rfl
          have hstep1 : specStepField exec t ⟨kinds, owners, conflicts⟩ f =
              ⟨kinds, minsert owners (t.key ++ "." ++ f.name) exec, conflicts⟩ := by
            simp only [specStepField, hsp]
          have hstep2 : buildField exec t.key curKind t.nameStr (cf, tfbn, dups) f =
              (cf ++ [f], minsert tfbn (t.key ++ "." ++ f.name) (exec, cf.length), dups) := by
            simp only [buildField, hl]
          rw [hstep1, hstep2]
          refine ih _ _ _ _ _ (fun k => ?_) hc
          rw [alookup_minsert, alookup_minsert]
          by_cases hkk : t.key ++ "." ++ f.name = k
          · simp [hkk]
          · simp [hkk, ho k]

theorem invK_update (types : List MType) (tbn : List (String × Nat))
    (kinds : List (String × TypeKind)) (idx : Nat) (f : MType → MType)
    (hf : ∀ mt, (f mt).kind = mt.kind)
    (h2 : ∀ k, alookup kinds k = (alookup tbn k).bind fun i => (types.get? i).map MType.kind) :
    ∀ k, alookup kinds k =
      (alookup tbn k).bind fun i => ((listModify types idx f).get? i).map MType.kind := by
  intro k
  rw [h2 k]
  cases hl : alookup tbn k with
  | none => rfl
  | some i =>
      simp only [Option.some_bind]
      rw [listModify_get?]
      by_cases hi : i = idx
      · subst hi
        cases types.get? i with
        | none => simp
        | some mt => simp [hf]
      · simp [hi]

theorem BuildInv_types_update (types : List MType) (tbn : List (String × Nat))
    (tfbn : List (String × (String × Nat))) (dups : List (String × String × String))
    (ptbn : List (String × (String × Bool))) (sst : SpecSt) (idx : Nat) (f : MType → MType)
    (hf : ∀ mt, (f mt).kind = mt.kind)
    (inv : BuildInv ⟨types, tbn, tfbn, dups, ptbn⟩ sst)
    (tpb : List (String × (String × Bool))) :
    BuildInv ⟨listModify types idx f, tbn, tfbn, dups, tpb⟩ sst := by
  obtain ⟨h1, h2, h3, h4⟩ := inv
  refine ⟨h1, invK_update types tbn sst.kinds idx f hf h2, h3, ?_⟩
  intro k i hl
  simp only [listModify_length]
  exact h4 k i hl

theorem BuildInv_fields_stage (exec : String) (t : SType)
    (types : List MType) (tbn : List (String × Nat)) (tfbn : List (String × (String × Nat)))
    (dups : List (String × String × String)) (ptbn : List (String × (String × Bool)))
    (sst : SpecSt) (idx : Nat) (curKind : TypeKind) (fs : List SField) (cf : List SField)
    (inv : BuildInv ⟨types, tbn, tfbn, dups, ptbn⟩ sst)
    (hkey : alookup sst.kinds t.key = some curKind) :
    BuildInv
      ⟨listModify types idx fun mt =>
          { mt with fields := some (fs.foldl (buildField exec t.key curKind t.nameStr)
              (cf, tfbn, dups)).1 },
        tbn,
        (fs.foldl (buildField exec t.key curKind t.nameStr) (cf, tfbn, dups)).2.1,
        (fs.foldl (buildField exec t.key curKind t.nameStr) (cf, tfbn, dups)).2.2,
        ptbn⟩
      (fs.foldl (specStepField exec t) sst) := by
  obtain ⟨h1, h2, h3, h4⟩ := inv
  obtain ⟨hk', ho', hc'⟩ := buildField_fold_inv exec t curKind sst.kinds hkey fs cf
    tfbn dups sst.owners sst.conflicts h1 h3
  refine ⟨ho', ?_, hc', ?_⟩
  · intro k
    rw [hk']
    exact invK_update types tbn sst.kinds idx
      (fun mt => { mt with fields := some (fs.foldl (buildField exec t.key curKind t.nameStr)
        (cf, tfbn, dups)).1 }) (fun mt => rfl) h2 k
  · intro k i hl
    simp only [listModify_length]
    exact h4 k i hl

theorem buildType_inv (exec : String) (t : SType) (bst : BuildState) (sst : SpecSt)
    (inv : BuildInv bst sst) :
    BuildInv (buildType exec bst t) (specStepType exec sst t) := by
  obtain ⟨invO, invK, invC, invIdx⟩ := inv
  cases hlook : alookup bst.typesByName t.key with
  | none =>
      have hkN : alookup sst.kinds t.key = none := by
        rw [invK, hlook]; rfl
      have hkNi : (alookup sst.kinds t.key).isSome = false := by rw [hkN]; rfl
      have hinv1 : BuildInv
          { bst with
            typesByName := minsert bst.typesByName t.key bst.types.length
            types := bst.types ++ [⟨t.kind, t.name?, none, t.interfaces?, none⟩] }
          { sst with kinds := minsert sst.kinds t.key t.kind } := by
        refine ⟨invO, ?_, invC, ?_⟩
        · intro k
          rw [alookup_minsert, alookup_minsert]
          by_cases hkk : t.key = k
          · subst hkk
            simp [List.get?_concat_length]
          · simp only [if_neg hkk]
            rw [invK k]
            cases hl : alookup bst.typesByName k with
            | none => rfl
            | some i =>
                simp only [Option.some_bind]
                rw [List.get?_append (invIdx k i hl)]
        · intro k i hl
          rw [alookup_minsert] at hl
          by_cases hkk : t.key = k
          · rw [if_pos hkk] at hl
            cases hl
            simp
          · rw [if_neg hkk] at hl
            have := invIdx k i hl
            simp only [List.length_append, List.length_cons, List.length_nil]
            omega
      have hkey1 : alookup (minsert sst.kinds t.key t.kind) t.key = some t.kind := by
        rw [alookup_minsert]
        simp
      simp only [buildType, specStepType, hlook, Option.none_bind, hkNi, Bool.false_eq_true,
        if_false]
      cases hpt : t.possibleTypes? with
      | none =>
          cases hfs : t.fields? with
          | none =>
              simp only [Option.getD_none, List.foldl_nil]
              exact hinv1
          | some fs =>
              simp only [Option.getD_some]
              apply BuildInv_fields_stage
              · exact hinv1
              · exact hkey1
      | some pts =>
          cases hfs : t.fields? with
          | none =>
              simp only [Option.getD_none, List.foldl_nil]
              apply BuildInv_types_update
              · exact fun mt => rfl
              · exact hinv1
          | some fs =>
              simp only [Option.getD_some]
              apply BuildInv_fields_stage
              · apply BuildInv_types_update
                · exact fun mt => rfl
                · exact hinv1
              · exact hkey1
  | some i =>
      have hlt : i < bst.types.length := invIdx t.key i hlook
      have hget : bst.types.get? i = some (bst.types.get ⟨i, hlt⟩) := List.get?_eq_get hlt
      have hkS : alookup sst.kinds t.key = some (bst.types.get ⟨i, hlt⟩).kind := by
        rw [invK, hlook, Option.some_bind, hget]; rfl
      have hkSi : (alookup sst.kinds t.key).isSome = true := by rw [hkS]; rfl
      have hinv0 : BuildInv bst sst := ⟨invO, invK, invC, invIdx⟩
      simp only [buildType, specStepType, hlook, Option.some_bind, hget, Option.map_some',
        hkSi, if_true, eq_self_iff_true]
      cases hpt : t.possibleTypes? with
      | none =>
          cases hfs : t.fields? with
          | none =>
              simp only [Option.getD_none, List.foldl_nil]
              exact hinv0
          | some fs =>
              simp only [Option.getD_some]
              apply BuildInv_fields_stage
              · exact hinv0
              · exact hkS
      | some pts =>
          cases hfs : t.fields? with
          | none =>
              simp only [Option.getD_none, List.foldl_nil]
              apply BuildInv_types_update
              · exact fun mt => rfl
              · exact hinv0
          | some fs =>
              simp only [Option.getD_some]
              apply BuildInv_fields_stage
              · apply BuildInv_types_update
                · exact fun mt => rfl
                · exact hinv0
              · exact hkS


theorem buildRun_inv (schemas : List (String × ISchema)) :
    BuildInv (buildRun schemas) (specRun schemas) := by
  have hinit : BuildInv ⟨[], [], [], [], []⟩ ⟨[], [], []⟩ :=
    ⟨fun k => rfl, fun k => rfl, rfl, fun k i h => by cases h⟩
  have htypes : ∀ (e : String) (ts : List SType) (bst : BuildState) (sst : SpecSt),
      BuildInv bst sst →
      BuildInv (ts.foldl (buildType e) bst) (ts.foldl (specStepType e) sst) := by
    intro e ts
    induction ts with
    | nil => intro bst sst h; exact h
    | cons t ts ihT =>
        intro bst sst h
        simp only [List.foldl_cons]
        exact ihT _ _ (buildType_inv e t bst sst h)
  have hgen : ∀ (ss : List (String × ISchema)) (bst : BuildState) (sst : SpecSt),
      BuildInv bst sst →
      BuildInv (ss.foldl (fun st p => p.2.types.foldl (buildType p.1) st) bst)
        (ss.foldl (fun acc p => p.2.types.foldl (specStepType p.1) acc) sst) := by
    intro ss
    induction ss with
    | nil => intro bst sst h; exact h
    | cons p ps ih =>
        intro bst sst h
        simp only [List.foldl_cons]
        exact ih _ _ (htypes p.1 p.2.types bst sst h)
  exact hgen schemas _ _ hinit

/-- When `create_schema` succeeds, every field key's recorded owner is the
first declaring executor in iteration order (the owner computed by the
specification-side walk). -/
theorem create_schema_owner (schemas : List (String × ISchema)) (g : GatewaySchema)
    (k e : String) (i : Nat)
    (hok : create_schema schemas = .ok g)
    (hlk : alookup g.typeFieldsByName k = some (e, i)) :
    alookup (specOwners schemas) k = some e := by
  obtain ⟨invO, invK, invC, invIdx⟩ := buildRun_inv schemas
  have hd : ¬ (buildRun schemas).duplicates ≠ [] := by
    intro hd
    simp only [create_schema, if_pos hd] at hok
    cases hok
  simp only [create_schema, if_neg hd] at hok
  cases hok
  show alookup (specRun schemas).owners k = some e
  rw [invO k, hlk]
  rfl

/-- C2, counterexample.  The claim's "declared by two executors" is too
strong: a single executor whose schema declares `Object.T.f` twice (a
`String` field, no whitelist condition holds) already fails the build
with `DuplicateObjectFields`, although every declaring executor of every
field key is the same, single executor `"a"`. -/
theorem c2_counterexample :
    create_schema dupSchemas = .error (.duplicateObjectFields [("a", "a", "Object.T.f")]) ∧
    ∀ p1 ∈ dupSchemas, ∀ p2 ∈ dupSchemas, p1.1 = p2.1 :=
  ⟨rfl, by decide⟩

/-- C2, amended: schema building fails with `DuplicateObjectFields` iff
some field key `<Kind>.<TypeName>.<FieldName>` is declared a second time
(by a later executor or again within the same schema) and, for the
repeated declaration, none of the four whitelist conditions holds (final
type named `ID`; owning type's recorded kind not `Object`; final type's
kind `Interface`; owning type's name starting with `"__"`) — this is
`specConflicts`, the §4.1 walk.  Whitelisted repeats are skipped silently
and the first declaring executor stays the sole recorded owner. -/
theorem c2_duplicate_field_gate (schemas : List (String × ISchema)) :
    (create_schema schemas = .error (.duplicateObjectFields (specConflicts schemas)) ↔
      specConflicts schemas ≠ []) ∧
    ∀ (g : GatewaySchema) (k e : String) (i : Nat),
      create_schema schemas = .ok g →
      alookup g.typeFieldsByName k = some (e, i) →
      alookup (specOwners schemas) k = some e := by
  obtain ⟨invO, invK, invC, invIdx⟩ := buildRun_inv schemas
  have hc : specConflicts schemas = (buildRun schemas).duplicates := invC
  refine ⟨⟨?_, ?_⟩, fun g k e i hok hlk => create_schema_owner schemas g k e i hok hlk⟩
  · intro heq hnil
    have hd : (buildRun schemas).duplicates = [] := by rw [← hc]; exact hnil
    have hnd : ¬ (buildRun schemas).duplicates ≠ [] := fun hx => hx hd
    simp only [create_schema, if_neg hnd] at heq
    cases heq
  · intro hnil
    have hd : (buildRun schemas).duplicates ≠ [] := by rw [← hc]; exact hnil
    rw [hc]
    simp only [create_schema, if_pos hd]

/-- C2, witness: one executor `"a"` declaring the `ID`-typed `T.f` builds
successfully and `"a"` is the recorded owner. -/
theorem c2_witness :
    alookup (specOwners [schemaPairA]) "Object.T.f" = some "a" :=
  (c2_duplicate_field_gate [schemaPairA]).2 builtA "Object.T.f" "a" 0 rfl rfl

/-! ## Claim C8: merged-schema build determinism -/

/-- C8, counterexample.  The same input map `{a ↦ T.f:ID, b ↦ T.f:ID}`
iterated in its two orders builds successfully both times (the repeat is
whitelisted by the `ID` rule), but `fieldIndex` maps `Object.T.f` to
owner `"a"` in one run and `"b"` in the other: the two runs' `fieldIndex`
do not agree as lookup functions. -/
theorem c8_counterexample :
    ([schemaPairA, schemaPairB] : List (String × ISchema)).Perm [schemaPairB, schemaPairA] ∧
    create_schema [schemaPairA, schemaPairB] = .ok builtA ∧
    alookup builtA.typeFieldsByName "Object.T.f" = some ("a", 0) ∧
    create_schema [schemaPairB, schemaPairA] = .ok builtB ∧
    alookup builtB.typeFieldsByName "Object.T.f" = some ("b", 0) ∧
    some (("a", 0) : String × Nat) ≠ some (("b", 0) : String × Nat) :=
  ⟨List.Perm.swap _ _ _, rfl, rfl, rfl, rfl, by simp⟩

/-- C8, amended: the build is a deterministic function of the executor
iteration sequence, and the `ownerExecutor` recorded in `fieldIndex` is
always the first declaring executor in that sequence; hence two runs
agree whenever they iterate the executors in the same order, while runs
that iterate the same map in different orders can record different owners
for a field key that several executors declare (under a whitelist
condition). -/
theorem c8_amended_first_owner (schemas : List (String × ISchema)) (g : GatewaySchema)
    (k e : String) (i : Nat)
    (hok : create_schema schemas = .ok g)
    (hlk : alookup g.typeFieldsByName k = some (e, i)) :
    alookup (specOwners schemas) k = some e :=
  create_schema_owner schemas g k e i hok hlk

/-- C8, witness for the amended theorem. -/
theorem c8_witness :
    alookup (specOwners [schemaPairB]) "Object.T.f" = some "b" :=
  c8_amended_first_owner [schemaPairB] builtB "Object.T.f" "b" 0 rfl rfl


/-! ## Claim C4: synthetic id uniqueness in `resolve_executor` -/

theorem selfield_withSelections_name (f : SelField) (sels : List Selection) :
    (f.withSelections sels).name = f.name := by
  cases f; rfl

/-- The top-level loop of `resolve_executor` only appends selections, and
every field it appends has a name other than `id` (top-level `id`
fields of the input are skipped, fragment spreads and inline fragments
are not fields). -/
theorem goRE_ok_shape (rec : MType → List Selection → String → Except QueryError ResolveInfo)
    (ctx : Context) (P : MType) (ex : String) :
    ∀ (sels items : List Selection) (frags : List (String × FragmentDef))
      (vars : List (String × VariableDef)) (errs : List (Pos × QueryError))
      (info : ResolveInfo),
      goRE rec ctx P ex sels items frags vars errs = .ok info →
      ∃ tail, info.selections = items ++ tail ∧ ∀ s ∈ tail, isIdField s = false := by
  intro sels
  induction sels with
  | nil =>
      intro items frags vars errs info h
      simp only [goRE] at h
      split at h
      · cases h
        exact ⟨[], by simp, by simp⟩
      · cases h
  | cons s rest ih =>
      intro items frags vars errs info h
      have push :
          ∀ (x : Selection) frags' vars' errs', isIdField x = false →
            goRE rec ctx P ex rest (items ++ [x]) frags' vars' errs' = .ok info →
            ∃ tail, info.selections = items ++ tail ∧ ∀ s ∈ tail, isIdField s = false := by
        intro x frags' vars' errs' hx hgo
        obtain ⟨tail, htail, hmem⟩ := ih _ _ _ _ _ hgo
        refine ⟨x :: tail, by rw [htail]; simp, ?_⟩
        intro s hs
        rcases List.mem_cons.mp hs with h1 | h2
        · subst h1; exact hx
        · exact hmem s h2
      cases s with
      | field f =>
          by_cases hid : f.name = "id"
          · simp only [goRE, if_pos hid] at h
            exact ih _ _ _ _ _ h
          · simp only [goRE, if_neg hid] at h
            cases hft : ctx.fieldObjectType P f.name with
            | none =>
                simp only [hft] at h
                exact ih _ _ _ _ _ h
            | some p =>
                obtain ⟨fe, ft⟩ := p
                simp only [hft] at h
                have cont :
                    ∀ (fx : String),
                      (if f.selectionSet.isEmpty = true then
                          goRE rec ctx P ex rest (items ++ [Selection.field f]) frags
                            (mextend vars (fieldVariableDefinitions ctx f.arguments)) errs
                        else
                          match rec ft f.selectionSet fx with
                          | .error e => .error e
                          | .ok result =>
                              if (result.selections.isEmpty && result.fragments.isEmpty) = true then
                                goRE rec ctx P ex rest items frags vars errs
                              else
                                goRE rec ctx P ex rest
                                  (items ++ [Selection.field (f.withSelections result.selections)])
                                  (mextend frags result.fragments)
                                  (mextend (mextend vars result.variableDefinitions)
                                    (fieldVariableDefinitions ctx f.arguments)) errs) = .ok info →
                      ∃ tail, info.selections = items ++ tail ∧
                        ∀ s ∈ tail, isIdField s = false := by
                  intro fx hcase
                  by_cases hsel : f.selectionSet.isEmpty = true
                  · rw [if_pos hsel] at hcase
                    exact push _ _ _ _ (by simp [isIdField, hid]) hcase
                  · rw [if_neg hsel] at hcase
                    cases hrec : rec ft f.selectionSet fx with
                    | error e => simp only [hrec] at hcase; cases hcase
                    | ok result =>
                        simp only [hrec] at hcase
                        by_cases hres :
                            (result.selections.isEmpty && result.fragments.isEmpty) = true
                        · rw [if_pos hres] at hcase
                          exact ih _ _ _ _ _ hcase
                        · rw [if_neg hres] at hcase
                          exact push _ _ _ _
                            (by simp [isIdField, selfield_withSelections_name, hid]) hcase
                by_cases hint : ft.isInterfaceType = true
                · rw [if_pos hint, if_neg (not_not_intro rfl)] at h
                  exact cont ex h
                · rw [if_neg hint] at h
                  by_cases hexec : ex ≠ fe
                  · rw [if_pos hexec] at h
                    exact ih _ _ _ _ _ h
                  · rw [if_neg hexec] at h
                    exact cont fe h
      | fragmentSpread pos fname =>
          simp only [goRE] at h
          cases hfr : alookup ctx.fragments fname with
          | none => simp only [hfr] at h; exact ih _ _ _ _ _ h
          | some fragment =>
              simp only [hfr] at h
              cases hot : ctx.object fragment.typeCondition with
              | none => simp only [hot] at h; exact ih _ _ _ _ _ h
              | some objectType =>
                  simp only [hot] at h
                  cases hrec : rec objectType fragment.selectionSet ex with
                  | error e => simp only [hrec] at h; cases h
                  | ok finfo =>
                      simp only [hrec] at h
                      by_cases hlen : finfo.selections.length ≤ 1
                      · rw [if_pos hlen] at h
                        exact ih _ _ _ _ _ h
                      · rw [if_neg hlen] at h
                        by_cases hmemf : (alookup frags fragment.name).isSome = true
                        · rw [if_pos hmemf] at h
                          exact push (.fragmentSpread pos fname) _ _ _ rfl h
                        · rw [if_neg hmemf] at h
                          exact push (.fragmentSpread pos fname) _ _ _ rfl h
      | inlineFragment pos cond innerItems =>
          simp only [goRE] at h
          cases cond with
          | none => exact ih _ _ _ _ _ h
          | some v =>
              cases hot : ctx.object v with
              | none => simp only [hot] at h; exact ih _ _ _ _ _ h
              | some objectType =>
                  simp only [hot] at h
                  cases hrec : rec objectType innerItems ex with
                  | error e => simp only [hrec] at h; cases h
                  | ok finfo =>
                      simp only [hrec] at h
                      by_cases hlen : finfo.selections.length ≤ 1
                      · rw [if_pos hlen] at h
                        exact ih _ _ _ _ _ h
                      · rw [if_neg hlen] at h
                        exact push (.inlineFragment pos (some v) finfo.selections) _ _ _ rfl h

theorem firstClientIdField_name :
    ∀ (sels : List Selection) (f : SelField),
      firstClientIdField sels = some f → f.name = "id" := by
  intro sels
  induction sels with
  | nil => intro f h; simp [firstClientIdField] at h
  | cons s rest ih =>
      intro f h
      cases s with
      | field g =>
          by_cases hg : g.name = "id"
          · simp only [firstClientIdField, List.findSome?_cons, if_pos hg] at h
            cases h
            exact hg
          · simp only [firstClientIdField, List.findSome?_cons, if_neg hg] at h
            exact ih f h
      | fragmentSpread pos fname =>
          simp only [firstClientIdField, List.findSome?_cons] at h
          exact ih f h
      | inlineFragment pos cond items =>
          simp only [firstClientIdField, List.findSome?_cons] at h
          exact ih f h

/-- C4: for a `Node`-implementing parent and a non-empty selection list,
the selection list produced by `resolve_executor` begins with exactly one
`id` field — the client's own first `id` field (alias included) when the
client requested `id`, otherwise the synthetic alias-free `id` field —
and contains no other top-level field named `id`, however many times `id`
appears in the input. -/
theorem c4_synthetic_id_unique (n : Nat) (ctx : Context) (P : MType)
    (sels : List Selection) (ex : String) (info : ResolveInfo)
    (hok : resolveExecutor n ctx P sels ex = .ok info)
    (hnode : P.isNodeType = true) (hne : sels ≠ []) :
    ∃ tail,
      info.selections =
        Selection.field ((firstClientIdField sels).getD syntheticIdField) :: tail ∧
      ((firstClientIdField sels).getD syntheticIdField).name = "id" ∧
      ∀ s ∈ tail, isIdField s = false := by
  cases n with
  | zero => cases hok
  | succ n =>
      have hempty : sels.isEmpty = false := by
        cases sels with
        | nil => exact absurd rfl hne
        | cons a l => rfl
      have hcond : ¬ sels.isEmpty = true ∧ P.isNodeType = true := by
        simp [hempty, hnode]
      simp only [resolveExecutor, if_pos hcond] at hok
      obtain ⟨tail, htail, hmem⟩ := goRE_ok_shape _ ctx P ex sels _ [] [] [] info hok
      refine ⟨tail, by simpa using htail, ?_, hmem⟩
      cases hfc : firstClientIdField sels with
      | none => rfl
      | some f => simpa using firstClientIdField_name sels f hfc

/-- C4, witness: the client requests only `myId: id`; the rewritten
selection list is exactly the aliased client `id` field. -/
theorem c4_witness :
    nodeTypeBare.isNodeType = true ∧
    [Selection.field aliasedIdField] ≠ ([] : List Selection) ∧
    ∃ tail,
      (ResolveInfo.mk [Selection.field aliasedIdField] [] []).selections =
        Selection.field ((firstClientIdField [Selection.field aliasedIdField]).getD
          syntheticIdField) :: tail ∧
      ((firstClientIdField [Selection.field aliasedIdField]).getD syntheticIdField).name = "id" ∧
      ∀ s ∈ tail, isIdField s = false :=
  ⟨rfl, by simp,
    c4_synthetic_id_unique 1 emptyCtx nodeTypeBare [Selection.field aliasedIdField] "e"
      ⟨[Selection.field aliasedIdField], [], []⟩ rfl rfl (by simp)⟩

/-! ## Claim C5: `validate` is state preserving -/

/-- C5: `Gateway::validate(name, schema)` leaves every component of the
gateway's state — executor map, cached introspections, merged schema,
schema document — unchanged, whatever the outcome: the method computes
`create_schema` on a clone of the introspection map and returns only the
result. -/
theorem c5_validate_state_preserving (g : Gateway) (name : String) (schema : ISchema) :
    (Gateway.validate g name schema).2 = g ∧
    (Gateway.validate g name schema).2.executors = g.executors ∧
    (Gateway.validate g name schema).2.introspections = g.introspections ∧
    (Gateway.validate g name schema).2.schema = g.schema ∧
    (Gateway.validate g name schema).2.document = g.document :=
  ⟨rfl, rfl, rfl, rfl, rfl⟩

/-! ## Claim C6: resolve base-case identities -/

/-- C6: for every parent type, selection list and data — and for every
upstream oracle, which shows no executor is contacted — `resolve` returns
the data unchanged when the selection list is empty, returns `null` on
`null` data, and returns `[]` on an empty array. -/
theorem c6_resolve_base_cases (n : Nat) (ctx : Context) (oracle : NodeOracle) (P : MType) :
    (∀ data, resolve n ctx oracle P data [] = .ok data) ∧
    (∀ sels, resolve n ctx oracle P Json.null sels = .ok Json.null) ∧
    (∀ sels, resolve n ctx oracle P (Json.arr []) sels = .ok (Json.arr [])) := by
  refine ⟨fun data => ?_, fun sels => resolve_null n ctx oracle P sels, fun sels => ?_⟩
  · cases n <;> simp [resolve]
  · cases n <;> cases sels <;> simp [resolve, Json.isNull, Json.isEmptyArr]

/-! ## Claim C9: executor-response triage -/

/-- C9: `check_executor_response` gives the `errors` key priority — any
response containing it (even alongside `data`) raises
`Executor(response)`; otherwise a missing or non-object `data` raises
`InvalidExecutorResponse`, and only an object `data` is accepted. -/
theorem c9_response_triage (res : Json) :
    check_executor_response res =
      if (res.get? "errors").isSome then .error (.executor res)
      else
        match res.get? "data" with
        | some (Json.obj o) => .ok o
        | _ => .error .invalidExecutorResponse := by
  unfold check_executor_response
  split
  · rfl
  · cases hd : res.get? "data" with
    | none => rfl
    | some d => cases d <;> rfl

/-! ## Claim C10: missing response keys are recorded errors -/

theorem goR_errs_suffix (rec : MType → Json → List Selection → Except QueryError Json)
    (ctx : Context) (P : MType) (data : Json) :
    ∀ (sels : List Selection) (map : List (String × Json)) (errs : List (Pos × QueryError))
      (map' : List (String × Json)) (errs' : List (Pos × QueryError)),
      goR rec ctx P data sels map errs = .ok (map', errs') →
      ∃ t, errs' = errs ++ t := by
  intro sels
  induction sels with
  | nil =>
      intro map errs map' errs' h
      simp only [goR] at h
      cases h
      exact ⟨[], by simp⟩
  | cons s rest ih =>
      intro map errs map' errs' h
      have step : ∀ e map₀, goR rec ctx P data rest map₀ (errs ++ [e]) = .ok (map', errs') →
          ∃ t, errs' = errs ++ t := by
        intro e map₀ hgo
        obtain ⟨t, ht⟩ := ih _ _ _ _ hgo
        exact ⟨e :: t, by rw [ht]; simp⟩
      cases s with
      | field f =>
          by_cases hsch : f.name = "__schema"
          · simp only [goR, if_pos hsch] at h
            cases hobj : ctx.object "__Schema" with
            | none =>
                simp only [hobj] at h
                exact ih _ _ _ _ h
            | some ot =>
                simp only [hobj] at h
                cases hrec : rec ot ctx.schemaData f.selectionSet with
                | error e => simp only [hrec] at h; cases h
                | ok d =>
                    simp only [hrec] at h
                    exact ih _ _ _ _ h
          · simp only [goR, if_neg hsch] at h
            cases hdata : data.get? f.responseKey with
            | none =>
                simp only [hdata] at h
                exact step _ _ h
            | some v =>
                simp only [hdata] at h
                cases hft : ctx.fieldObjectType P f.name with
                | none =>
                    simp only [hft, Option.map_none'] at h
                    exact ih _ _ _ _ h
                | some p =>
                    simp only [hft, Option.map_some'] at h
                    cases hrec : rec p.2 v f.selectionSet with
                    | error e => simp only [hrec] at h; cases h
                    | ok d =>
                        simp only [hrec] at h
                        exact ih _ _ _ _ h
      | fragmentSpread pos fname =>
          simp only [goR] at h
          cases hfr : alookup ctx.fragments fname with
          | none =>
              simp only [hfr] at h
              exact step _ _ h
          | some fragment =>
              simp only [hfr] at h
              cases hot : ctx.object fragment.typeCondition with
              | none =>
                  simp only [hot] at h
                  exact step _ _ h
              | some ot =>
                  simp only [hot] at h
                  cases hrec : rec ot data fragment.selectionSet with
                  | error e => simp only [hrec] at h; cases h
                  | ok d =>
                      simp only [hrec] at h
                      cases d <;> simp only at h <;> exact ih _ _ _ _ h
      | inlineFragment pos cond items =>
          simp only [goR] at h
          cases cond with
          | none => exact step _ _ h
          | some v =>
              cases hot : ctx.object v with
              | none =>
                  simp only [hot] at h
                  exact step _ _ h
              | some ot =>
                  simp only [hot] at h
                  cases hrec : rec ot data items with
                  | error e => simp only [hrec] at h; cases h
                  | ok d =>
                      simp only [hrec] at h
                      cases d <;> simp only at h <;> exact ih _ _ _ _ h

/-- Every selected field (other than `__schema`) whose response key is
absent from the data contributes its `FieldDataNotFound` error to the
final error list: the loop records the error and keeps scanning. -/
theorem goR_missing_mem (rec : MType → Json → List Selection → Except QueryError Json)
    (ctx : Context) (P : MType) (data : Json) :
    ∀ (sels : List Selection) (map : List (String × Json)) (errs : List (Pos × QueryError))
      (map' : List (String × Json)) (errs' : List (Pos × QueryError)),
      goR rec ctx P data sels map errs = .ok (map', errs') →
      ∀ f : SelField, Selection.field f ∈ sels → f.name ≠ "__schema" →
        data.get? f.responseKey = none →
        (f.position, QueryError.fieldDataNotFound P.nameStr f.responseKey) ∈ errs' := by
  intro sels
  induction sels with
  | nil =>
      intro map errs map' errs' h f hf
      cases hf
  | cons s rest ih =>
      intro map errs map' errs' h f hf hname hmiss
      have tailCase :
          ∀ (map₀ : List (String × Json)) (errs₀ : List (Pos × QueryError)),
            goR rec ctx P data rest map₀ errs₀ = .ok (map', errs') →
            Selection.field f ∈ rest →
            (f.position, QueryError.fieldDataNotFound P.nameStr f.responseKey) ∈ errs' :=
        fun map₀ errs₀ hgo hmem => ih map₀ errs₀ map' errs' hgo f hmem hname hmiss
      rcases List.mem_cons.mp hf with heq | hftail
      · cases heq
        simp only [goR, if_neg hname, hmiss] at h
        obtain ⟨t, ht⟩ := goR_errs_suffix rec ctx P data rest _ _ _ _ h
        rw [ht]
        simp
      · cases s with
        | field g =>
            by_cases hsch : g.name = "__schema"
            · simp only [goR, if_pos hsch] at h
              cases hobj : ctx.object "__Schema" with
              | none =>
                  simp only [hobj] at h
                  exact tailCase _ _ h hftail
              | some ot =>
                  simp only [hobj] at h
                  cases hrec : rec ot ctx.schemaData g.selectionSet with
                  | error e => simp only [hrec] at h; cases h
                  | ok d =>
                      simp only [hrec] at h
                      exact tailCase _ _ h hftail
            · simp only [goR, if_neg hsch] at h
              cases hdata : data.get? g.responseKey with
              | none =>
                  simp only [hdata] at h
                  exact tailCase _ _ h hftail
              | some v =>
                  simp only [hdata] at h
                  cases hft : ctx.fieldObjectType P g.name with
                  | none =>
                      simp only [hft, Option.map_none'] at h
                      exact tailCase _ _ h hftail
                  | some p =>
                      simp only [hft, Option.map_some'] at h
                      cases hrec : rec p.2 v g.selectionSet with
                      | error e => simp only [hrec] at h; cases h
                      | ok d =>
                          simp only [hrec] at h
                          exact tailCase _ _ h hftail
        | fragmentSpread pos fname =>
            simp only [goR] at h
            cases hfr : alookup ctx.fragments fname with
            | none =>
                simp only [hfr] at h
                exact tailCase _ _ h hftail
            | some fragment =>
                simp only [hfr] at h
                cases hot : ctx.object fragment.typeCondition with
                | none =>
                    simp only [hot] at h
                    exact tailCase _ _ h hftail
                | some ot =>
                    simp only [hot] at h
                    cases hrec : rec ot data fragment.selectionSet with
                    | error e => simp only [hrec] at h; cases h
                    | ok d =>
                        simp only [hrec] at h
                        cases d <;> simp only at h <;> exact tailCase _ _ h hftail
        | inlineFragment pos cond items =>
            simp only [goR] at h
            cases cond with
            | none => exact tailCase _ _ h hftail
            | some v =>
                cases hot : ctx.object v with
                | none =>
                    simp only [hot] at h
                    exact tailCase _ _ h hftail
                | some ot =>
                    simp only [hot] at h
                    cases hrec : rec ot data items with
                    | error e => simp only [hrec] at h; cases h
                    | ok d =>
                        simp only [hrec] at h
                        cases d <;> simp only at h <;> exact tailCase _ _ h hftail

/-- C10: during the resolve loop over an object, every selected field
other than `__schema` whose response key (alias if present, else name) is
absent from the fetched data contributes a `FieldDataNotFound` error at
the field's source position while the loop continues scanning; a
non-empty accumulated error list then fails the whole `resolve` with
`Errors(list)` instead of returning a partial object. -/
theorem c10_missing_key_errors (n : Nat) (ctx : Context) (oracle : NodeOracle) (P : MType)
    (o : List (String × Json)) (sels : List Selection) (f : SelField)
    (map' : List (String × Json)) (errs' : List (Pos × QueryError))
    (hnode : P.isNodeType = false)
    (hgo : goR (fun P' d' s' => resolve n ctx oracle P' d' s') ctx P (Json.obj o) sels [] [] =
      .ok (map', errs'))
    (hf : Selection.field f ∈ sels) (hname : f.name ≠ "__schema")
    (hmiss : (Json.obj o).get? f.responseKey = none) :
    (f.position, QueryError.fieldDataNotFound P.nameStr f.responseKey) ∈ errs' ∧
    resolve (n + 1) ctx oracle P (Json.obj o) sels = .error (.errors errs') := by
  have hmem := goR_missing_mem _ ctx P (Json.obj o) sels [] [] map' errs' hgo f hf hname hmiss
  refine ⟨hmem, ?_⟩
  have hne : sels.isEmpty = false := by
    cases sels with
    | nil => cases hf
    | cons a l => rfl
  have hgnd : get_node_data n ctx oracle P (Json.obj o) sels = .ok (Json.obj o) := by
    simp [get_node_data, hnode]
  have hnil : errs' ≠ [] := List.ne_nil_of_mem hmem
  have hnilb : errs'.isEmpty = false := by
    cases errs' with
    | nil => exact absurd rfl hnil
    | cons a l => rfl
  simp only [resolve, Json.isNull, hne, Json.isEmptyArr, Bool.or_self, hgnd, hgo, hnilb,
    Bool.false_eq_true, if_false]

/-- C10, witness: resolving `{ a }` against the empty object records
`FieldDataNotFound(P, a)` at position 5:7 and the resolve fails with it. -/
theorem c10_witness :
    parentTypeP.isNodeType = false ∧
    Selection.field missingSel ∈ [Selection.field missingSel] ∧
    missingSel.name ≠ "__schema" ∧
    (Json.obj []).get? missingSel.responseKey = none ∧
    ((missingSel.position, QueryError.fieldDataNotFound parentTypeP.nameStr
        missingSel.responseKey) ∈
      [(missingSel.position, QueryError.fieldDataNotFound parentTypeP.nameStr
        missingSel.responseKey)] ∧
    resolve 1 plainCtx noNetwork parentTypeP (Json.obj [])
        [Selection.field missingSel] =
      .error (.errors [(missingSel.position, QueryError.fieldDataNotFound
        parentTypeP.nameStr missingSel.responseKey)])) :=
  ⟨rfl, List.mem_singleton.mpr rfl, by decide, rfl,
    c10_missing_key_errors 0 plainCtx noNetwork parentTypeP [] [Selection.field missingSel]
      missingSel [] [(missingSel.position, QueryError.fieldDataNotFound
        parentTypeP.nameStr missingSel.responseKey)] rfl rfl
      (List.mem_singleton.mpr rfl) (by decide) rfl⟩

end GraphQLGateway
